import Mathlib

/-!
Verification of the progress-tracking core of `src/downloder.py`
(`DownloadThread.run` / `DownloadThread.stop`).

The embedding below translates, line for line, the parsing loop of
`DownloadThread.run`: stripping each line, matching it against the two
regular expressions `Found\s+(\d+)\s+songs in .*` and
`Downloaded\s+"[^"]+":`, maintaining the `total_songs`,
`downloaded_songs` and `total_songs_set` variables, and emitting the
`log`, `total_songs_signal`, `downloaded_songs_signal` and `progress`
signals.  The percentage `int((downloaded_songs / total_songs) * 100)`
is computed by Python in IEEE-754 binary64 arithmetic; it is embedded
exactly as two round-to-nearest-even roundings over `ℚ` followed by
truncation (`roundDouble` below; exponent range idealized as unbounded,
which is faithful for every magnitude this program produces).
-/

/-- `bitlenAux fuel n` counts the binary digits of `n`, recursing on
`fuel`; exact whenever `n < 2 ^ fuel`. -/
def bitlenAux : Nat → Nat → Nat
  | 0, _ => 0
  | fuel + 1, n => if n = 0 then 0 else bitlenAux fuel (n / 2) + 1

/-- Number of binary digits of `n` (0 for 0). -/
def bitlen (n : Nat) : Nat := bitlenAux (n + 1) n

/-- `2 ^ k` in `ℚ` for an integer `k`, computed with `Nat` powers so
that it evaluates by kernel reduction. -/
def pow2 : Int → ℚ
  | Int.ofNat n => ((2 ^ n : Nat) : ℚ)
  | Int.negSucc n => 1 / ((2 ^ (n + 1) : Nat) : ℚ)

/-- The binade exponent of a positive rational: the unique `e` with
`2 ^ e ≤ q < 2 ^ (e + 1)`. -/
def fExp (q : ℚ) : Int :=
  let e0 : Int := (bitlen q.num.toNat : Int) - (bitlen q.den : Int)
  if pow2 e0 ≤ q then e0 else e0 - 1

/-- Round a rational to the nearest integer, ties to even. -/
def roundNE (x : ℚ) : Int :=
  if x - (⌊x⌋ : ℚ) < 1 / 2 then ⌊x⌋
  else if x - (⌊x⌋ : ℚ) = 1 / 2 then (if ⌊x⌋ % 2 = 0 then ⌊x⌋ else ⌊x⌋ + 1)
  else ⌊x⌋ + 1

/-- Round a nonnegative rational to the nearest IEEE-754 binary64
value (53-bit significand, round to nearest, ties to even), with the
exponent range idealized as unbounded.  This is the exact value Python
produces for the float operations in `DownloadThread.run`, whose
operands all lie well inside the normal range. -/
def roundDouble (q : ℚ) : ℚ :=
  if q ≤ 0 then 0
  else (roundNE (q * pow2 (52 - fExp q)) : ℚ) * pow2 (fExp q - 52)

/-- `int((downloaded_songs / total_songs) * 100)` from line 88 of
`src/downloder.py`: a binary64 division, a binary64 multiplication by
100, then truncation toward zero (the value is nonnegative). -/
def pyPercent (d t : Nat) : Nat :=
  (⌊roundDouble (roundDouble ((d : ℚ) / (t : ℚ)) * 100)⌋).toNat

/-! ## Line parsing

The two regular expressions of `DownloadThread.run`, embedded as
deterministic scanners over `List Char`.  Both patterns are used with
`re.search`, i.e. tried at every start position from the left;
backtracking inside `\s+`, `\d+` and `[^"]+` can never succeed after
the greedy run fails (whitespace, digits and the adjacent literal
characters are pairwise disjoint), so maximal-munch scanning is an
exact implementation.  Character classes are modelled on the ASCII
range the child process emits. -/

/-- ASCII whitespace, as matched by Python's `\s` and `str.strip`. -/
def isPySpace (c : Char) : Bool :=
  c = ' ' || c = '\t' || c = '\n' || c = '\r' || c = '\x0b' || c = '\x0c'

/-- ASCII decimal digit, as matched by Python's `\d`. -/
def isDigitCh (c : Char) : Bool :=
  '0' ≤ c && c ≤ '9'

/-- `line.strip()`: remove whitespace from both ends. -/
def pyStrip (s : List Char) : List Char :=
  ((s.dropWhile isPySpace).reverse.dropWhile isPySpace).reverse

/-- Value of a digit string, as computed by Python's `int`. -/
def digitsVal (ds : List Char) : Nat :=
  ds.foldl (fun a c => a * 10 + (c.toNat - '0'.toNat)) 0

/-- Strip a literal off the front of the input, or fail. -/
def stripLit : List Char → List Char → Option (List Char)
  | [], cs => some cs
  | _ :: _, [] => none
  | p :: ps, c :: cs => if p = c then stripLit ps cs else none

/-- Match `Found\s+(\d+)\s+songs in .*` anchored at the head of `cs`,
returning the captured number.  Note the regex's literal text is
`songs in ` with a trailing space (the space preceding `.*`). -/
def matchFoundAt (cs : List Char) : Option Nat :=
  match stripLit "Found".toList cs with
  | none => none
  | some r1 =>
    if (r1.takeWhile isPySpace).isEmpty then none
    else if ((r1.dropWhile isPySpace).takeWhile isDigitCh).isEmpty then none
    else if (((r1.dropWhile isPySpace).dropWhile isDigitCh).takeWhile isPySpace).isEmpty then none
    else
      match stripLit "songs in ".toList
          (((r1.dropWhile isPySpace).dropWhile isDigitCh).dropWhile isPySpace) with
      | none => none
      | some _ => some (digitsVal ((r1.dropWhile isPySpace).takeWhile isDigitCh))

/-- `found_songs_pattern.search`: try `matchFoundAt` at every start
position, leftmost match first; capture group 1 as a number. -/
def foundSearch : List Char → Option Nat
  | [] => none
  | c :: cs =>
    match matchFoundAt (c :: cs) with
    | some n => some n
    | none => foundSearch cs

/-- Match `Downloaded\s+"[^"]+":` anchored at the head of `cs`. -/
def matchDownloadedAt (cs : List Char) : Bool :=
  match stripLit "Downloaded".toList cs with
  | none => false
  | some r1 =>
    if (r1.takeWhile isPySpace).isEmpty then false else
    match r1.dropWhile isPySpace with
    | '"' :: r3 =>
      if (r3.takeWhile (fun c => !(c = '"'))).isEmpty then false else
      match r3.dropWhile (fun c => !(c = '"')) with
      | '"' :: ':' :: _ => true
      | _ => false
    | _ => false

/-- `downloaded_pattern.search`: true when the downloaded pattern
matches anywhere in the line. -/
def downloadedSearch : List Char → Bool
  | [] => false
  | c :: cs => matchDownloadedAt (c :: cs) || downloadedSearch cs

/-! ## The tracker state machine -/

/-- The signals emitted by the parsing loop: `log`,
`total_songs_signal`, `downloaded_songs_signal` and `progress`. -/
inductive Event where
  | LogEmitted (text : List Char)
  | TotalSet (n : Nat)
  | DownloadedIncremented (n : Nat)
  | ProgressUpdated (pct : Nat) (status : List Char)
  deriving DecidableEq

/-- The loop-local variables of `DownloadThread.run`. -/
structure TrackerState where
  total_songs : Nat
  downloaded_songs : Nat
  total_songs_set : Bool
  deriving DecidableEq

/-- State at loop entry: `total_songs = 0`, `downloaded_songs = 0`,
`total_songs_set = False`. -/
def initState : TrackerState := ⟨0, 0, false⟩

/-- The f-string `f"Total songs found: {total_songs}"` (line 80). -/
def totalLogText (n : Nat) : List Char :=
  "Total songs found: ".toList ++ (Nat.repr n).toList

/-- The f-string `f"Downloading {downloaded_songs}/{total_songs}"`
(line 89). -/
def statusText (d t : Nat) : List Char :=
  "Downloading ".toList ++ (Nat.repr d).toList ++ "/".toList ++ (Nat.repr t).toList

/-- Lines 83–90 of `src/downloder.py`: the downloaded-pattern check,
reached only when the found-songs branch did not `continue`. -/
def dlStep (s : TrackerState) (clean : List Char) : TrackerState × List Event :=
  if downloadedSearch clean then
    let d := s.downloaded_songs + 1
    if s.total_songs > 0 then
      ({ s with downloaded_songs := d },
       [Event.DownloadedIncremented d,
        Event.ProgressUpdated (pyPercent d s.total_songs) (statusText d s.total_songs)])
    else
      ({ s with downloaded_songs := d }, [Event.DownloadedIncremented d])
  else (s, [])

/-- One iteration of the `for line in self.process.stdout` loop body
(lines 69–90), as a function from the current state and the raw line
to the next state and the emitted signals, in emission order. -/
def onLine (s : TrackerState) (line : List Char) : TrackerState × List Event :=
  let clean := pyStrip line
  if s.total_songs_set = false then
    match foundSearch clean with
    | some n =>
        ({ s with total_songs := n, total_songs_set := true },
         [Event.LogEmitted clean, Event.TotalSet n, Event.LogEmitted (totalLogText n)])
    | none =>
        let p := dlStep s clean
        (p.1, Event.LogEmitted clean :: p.2)
  else
    let p := dlStep s clean
    (p.1, Event.LogEmitted clean :: p.2)

/-- Run the loop over a whole line sequence (no cancellation),
collecting the emitted events in order. -/
def processLines (s : TrackerState) : List (List Char) → TrackerState × List Event
  | [] => (s, [])
  | l :: ls =>
      let p := onLine s l
      let q := processLines p.1 ls
      (q.1, p.2 ++ q.2)

/-- The event trace of a fresh run over `ls`. -/
def runTrace (ls : List (List Char)) : List Event :=
  (processLines initState ls).2

/-- The loop with the cancellation check of lines 66–67: before each
line is processed, the `_is_running` flag is observed; `obs i` is the
value observed before line `i`.  A `False` observation breaks out of
the loop before the line is stripped, logged or parsed. -/
def runCancel (obs : Nat → Bool) (s : TrackerState) : List (List Char) → TrackerState × List Event
  | [] => (s, [])
  | l :: ls =>
      if obs 0 then
        let p := onLine s l
        let q := runCancel (fun n => obs (n + 1)) p.1 ls
        (q.1, p.2 ++ q.2)
      else (s, [])

/-! ## Outcome signals (`finished` / `error`) -/

/-- The two terminal signals a run can emit. -/
inductive Outcome where
  | finished
  | error
  deriving DecidableEq

/-- `DownloadThread.stop` (lines 102–108): clears `_is_running`, and —
when a live process exists (`poll()` is `None`) — terminates and kills
it and emits `finished`. -/
def stopEmits (procAlive : Bool) : List Outcome :=
  if procAlive then [Outcome.finished] else []

/-- Lines 94–98 of `DownloadThread.run`, reached after `wait()`:
emits `finished` on exit status 0 and `error` otherwise, but only when
`_is_running` is still set. -/
def runTailEmits (is_running : Bool) (returncode : Int) : List Outcome :=
  if is_running then (if returncode = 0 then [Outcome.finished] else [Outcome.error]) else []

/-- The outcome signals of a run in which `stop()` is called while the
child is still alive and the child then exits with the given status:
the `stop` emissions followed by the run-tail emissions (with
`_is_running` now `False`). -/
def cancelThenExit (returncode : Int) : List Outcome :=
  stopEmits true ++ runTailEmits false returncode

/-! ## Event classifiers and basic step lemmas -/

/-- Is the event a `log` emission? -/
def isLogEv : Event → Bool
  | .LogEmitted _ => true
  | _ => false

/-- Is the event a `total_songs_signal` emission? -/
def isTotalSetEv : Event → Bool
  | .TotalSet _ => true
  | _ => false

/-- Is the event a `downloaded_songs_signal` emission? -/
def isDLEv : Event → Bool
  | .DownloadedIncremented _ => true
  | _ => false

/-- Is the event a `progress` emission? -/
def isPUEv : Event → Bool
  | .ProgressUpdated _ _ => true
  | _ => false

theorem onLine_found {s : TrackerState} {l : List Char} {n : Nat}
    (h1 : s.total_songs_set = false) (h2 : foundSearch (pyStrip l) = some n) :
    onLine s l = ({ s with total_songs := n, total_songs_set := true },
      [Event.LogEmitted (pyStrip l), Event.TotalSet n,
       Event.LogEmitted (totalLogText n)]) := by
  simp [onLine, h1, h2]

theorem onLine_notFound {s : TrackerState} {l : List Char}
    (h1 : s.total_songs_set = false) (h2 : foundSearch (pyStrip l) = none) :
    onLine s l = ((dlStep s (pyStrip l)).1,
      Event.LogEmitted (pyStrip l) :: (dlStep s (pyStrip l)).2) := by
  simp [onLine, h1, h2]

theorem onLine_tset {s : TrackerState} {l : List Char}
    (h : s.total_songs_set = true) :
    onLine s l = ((dlStep s (pyStrip l)).1,
      Event.LogEmitted (pyStrip l) :: (dlStep s (pyStrip l)).2) := by
  simp [onLine, h]

theorem dlStep_total {s : TrackerState} {c : List Char} :
    (dlStep s c).1.total_songs = s.total_songs
    ∧ (dlStep s c).1.total_songs_set = s.total_songs_set := by
  unfold dlStep
  split <;> [skip; exact ⟨rfl, rfl⟩]
  split <;> exact ⟨rfl, rfl⟩

theorem dlStep_downloaded {s : TrackerState} {c : List Char} :
    (dlStep s c).1.downloaded_songs
      = if downloadedSearch c then s.downloaded_songs + 1 else s.downloaded_songs := by
  unfold dlStep
  split <;> [skip; rfl]
  split <;> rfl

theorem dlStep_events_noLog {s : TrackerState} {c : List Char} :
    (dlStep s c).2.countP isLogEv = 0 ∧ (dlStep s c).2.countP isTotalSetEv = 0 := by
  unfold dlStep
  split <;> [skip; simp]
  split <;> simp [isLogEv, isTotalSetEv]

/-! ## Claim C1 -/

/-- C1: the claim says that when `cancel()` arrives before the child
exits and the child then exits with status 0, the outcome is
`Cancelled` and no `Completed` outcome is produced.  Evaluating the
code at that input: `stop()` on a live process itself emits the
`finished` (completion) signal, so the run's emitted outcome is
exactly `finished`; the cancelled run tail emits nothing, and no
cancellation outcome exists in the thread at all. -/
theorem C1_cancel_emits_finished :
    cancelThenExit 0 = [Outcome.finished] ∧ runTailEmits false 0 = [] := by
  decide

/-! ## Claim C2 -/

/-- C2 counterexample: a line that sets the total produces two
`LogEmitted` events (the trimmed line and the `Total songs found: N`
summary), not exactly one. -/
theorem C2_counterexample :
    ¬ ((onLine initState "Found 1 songs in x".toList).2.countP isLogEv = 1) := by
  decide

/-- C2 amended: every line produces a `LogEmitted` event carrying the
line's trimmed text as its first event, and exactly one `LogEmitted`
in total — except a line that sets the total, which additionally
produces a second `LogEmitted` carrying the summary text. -/
theorem C2_log_per_line (s : TrackerState) (line : List Char) :
    (onLine s line).2.countP isLogEv
      = (if s.total_songs_set = false ∧ (foundSearch (pyStrip line)).isSome = true
          then 2 else 1)
    ∧ (onLine s line).2.head? = some (Event.LogEmitted (pyStrip line)) := by
  by_cases h1 : s.total_songs_set = false
  · cases h2 : foundSearch (pyStrip line) with
    | some n =>
        rw [onLine_found h1 h2]
        simp [h1, h2, isLogEv]
    | none =>
        rw [onLine_notFound h1 h2]
        simp [h1, h2, List.countP_cons, isLogEv, dlStep_events_noLog.1]
  · rw [onLine_tset (by revert h1; cases s.total_songs_set <;> simp)]
    simp [h1, List.countP_cons, isLogEv, dlStep_events_noLog.1]

/-! ## Claim C10 -/

theorem runCancel_take : ∀ (ls : List (List Char)) (obs : Nat → Bool)
    (k : Nat) (s : TrackerState),
    (∀ j, j < k → obs j = true) → obs k = false →
    runCancel obs s ls = processLines s (ls.take k)
  | [], _, k, s, _, _ => by simp [runCancel, processLines]
  | l :: ls, obs, 0, s, _, h2 => by
      simp [runCancel, h2, processLines]
  | l :: ls, obs, k + 1, s, h1, h2 => by
      have h0 : obs 0 = true := h1 0 (Nat.succ_pos k)
      have ih := runCancel_take ls (fun n => obs (n + 1)) k (onLine s l).1
        (fun j hj => h1 (j + 1) (Nat.succ_lt_succ hj)) h2
      simp [runCancel, h0, processLines, ih]

/-- C10: once the `_is_running` flag is observed `False` at the
boundary before line `k`, the loop exits before processing that line:
the run's state and events are exactly those of processing the first
`k` lines, so no event of any kind is produced from line `k` onward. -/
theorem C10_cancel_stops_processing (obs : Nat → Bool) (ls : List (List Char))
    (k : Nat) (h1 : ∀ j, j < k → obs j = true) (h2 : obs k = false) :
    runCancel obs initState ls = processLines initState (ls.take k) :=
  runCancel_take ls obs k initState h1 h2

/-- Witness for C10 at a concrete input: the flag is observed `True`
before line 0 and `False` before line 1, so only the first line's
events are produced. -/
theorem C10_witness :
    runCancel (fun n => n == 0) initState
        ["Found 2 songs in x".toList, "Downloaded \"a\":".toList]
      = processLines initState
          (["Found 2 songs in x".toList, "Downloaded \"a\":".toList].take 1) :=
  C10_cancel_stops_processing (fun n => n == 0) _ 1
    (fun j hj => by
      have : j = 0 := Nat.lt_one_iff.mp hj
      simp [this])
    (by decide)

/-! ## Running over line sequences -/

theorem processLines_cons (s : TrackerState) (l : List Char) (ls : List (List Char)) :
    processLines s (l :: ls)
      = ((processLines (onLine s l).1 ls).1,
         (onLine s l).2 ++ (processLines (onLine s l).1 ls).2) := rfl

theorem onLine_downloaded_mono (s : TrackerState) (l : List Char) :
    s.downloaded_songs ≤ (onLine s l).1.downloaded_songs := by
  by_cases h1 : s.total_songs_set = false
  · cases h2 : foundSearch (pyStrip l) with
    | some n => rw [onLine_found h1 h2]
    | none =>
        rw [onLine_notFound h1 h2, dlStep_downloaded]
        split <;> omega
  · rw [onLine_tset (by revert h1; cases s.total_songs_set <;> simp), dlStep_downloaded]
    split <;> omega

theorem processLines_downloaded_mono : ∀ (ls : List (List Char)) (s : TrackerState),
    s.downloaded_songs ≤ (processLines s ls).1.downloaded_songs
  | [], s => le_refl _
  | l :: ls, s =>
      le_trans (onLine_downloaded_mono s l)
        (processLines_downloaded_mono ls (onLine s l).1)

theorem processLines_downloaded_count : ∀ (ls : List (List Char)) (s : TrackerState),
    (∀ l ∈ ls, ¬((foundSearch (pyStrip l)).isSome = true ∧ downloadedSearch (pyStrip l) = true)) →
    (processLines s ls).1.downloaded_songs
      = s.downloaded_songs + ls.countP (fun l => downloadedSearch (pyStrip l))
  | [], s, _ => by simp [processLines]
  | l :: ls, s, h => by
      have hl := h l (List.mem_cons_self l ls)
      have hrest : ∀ x ∈ ls, ¬((foundSearch (pyStrip x)).isSome = true ∧ downloadedSearch (pyStrip x) = true) :=
        fun x hx => h x (List.mem_cons_of_mem l hx)
      rw [processLines_cons, List.countP_cons]
      by_cases h1 : s.total_songs_set = false
      · cases h2 : foundSearch (pyStrip l) with
        | some n =>
            have hdl : downloadedSearch (pyStrip l) = false := by
              revert hl; rw [h2]; cases downloadedSearch (pyStrip l) <;> simp
            rw [onLine_found h1 h2,
              processLines_downloaded_count ls _ hrest]
            simp [hdl]
        | none =>
            rw [onLine_notFound h1 h2,
              processLines_downloaded_count ls _ hrest, dlStep_downloaded]
            split <;> simp_all <;> omega
      · rw [onLine_tset (by revert h1; cases s.total_songs_set <;> simp),
          processLines_downloaded_count ls _ hrest, dlStep_downloaded]
        split <;> simp_all <;> omega

/-! ## Claim C3 -/

/-- C3 counterexample: a single line matching both patterns, fed to a
fresh tracker, is consumed by the total-found branch (`continue` on
line 81), so the downloaded counter stays 0 although one line of the
sequence matches the downloaded pattern. -/
theorem C3_counterexample :
    ¬ ((processLines initState ["Downloaded \"x\": y Found 2 songs in z".toList]).1.downloaded_songs
        = List.countP (fun l => downloadedSearch (pyStrip l))
            ["Downloaded \"x\": y Found 2 songs in z".toList]) := by
  decide

/-- C3 amended: for a fresh tracker, the final downloaded counter
equals the count of lines matching the downloaded pattern provided no
line matches both patterns (in general, the single line consumed to
set the total is never tested against the downloaded pattern and so is
not counted); and the counter never decreases as lines are consumed. -/
theorem C3_downloaded_counts_matches :
    (∀ ls : List (List Char),
      (∀ l ∈ ls, ¬((foundSearch (pyStrip l)).isSome = true ∧ downloadedSearch (pyStrip l) = true)) →
      (processLines initState ls).1.downloaded_songs
        = ls.countP (fun l => downloadedSearch (pyStrip l)))
    ∧ (∀ (s : TrackerState) (ls : List (List Char)),
        s.downloaded_songs ≤ (processLines s ls).1.downloaded_songs) :=
  ⟨fun ls h => by rw [processLines_downloaded_count ls initState h]; simp [initState],
   fun s ls => processLines_downloaded_mono ls s⟩

/-- Witness for C3 at a concrete input. -/
theorem C3_witness :
    (∀ l ∈ ["Found 3 songs in a".toList, "Downloaded \"s\":".toList],
      ¬((foundSearch (pyStrip l)).isSome = true ∧ downloadedSearch (pyStrip l) = true))
    ∧ (processLines initState ["Found 3 songs in a".toList, "Downloaded \"s\":".toList]).1.downloaded_songs
        = List.countP (fun l => downloadedSearch (pyStrip l))
            ["Found 3 songs in a".toList, "Downloaded \"s\":".toList] :=
  ⟨by decide, C3_downloaded_counts_matches.1 _ (by decide)⟩

/-! ## Claim C5 -/

theorem onLine_tset_invariant {s : TrackerState} (l : List Char)
    (h : s.total_songs_set = true) :
    (onLine s l).1.total_songs = s.total_songs
    ∧ (onLine s l).1.total_songs_set = true
    ∧ (onLine s l).2.countP isTotalSetEv = 0 := by
  rw [onLine_tset h]
  refine ⟨dlStep_total.1, ?_, ?_⟩
  · rw [dlStep_total.2, h]
  · simp [List.countP_cons, isTotalSetEv, dlStep_events_noLog.2]

theorem processLines_tset : ∀ (ls : List (List Char)) (s : TrackerState),
    s.total_songs_set = true →
    (processLines s ls).1.total_songs = s.total_songs
    ∧ (processLines s ls).1.total_songs_set = true
    ∧ (processLines s ls).2.countP isTotalSetEv = 0
  | [], s, h => ⟨rfl, h, rfl⟩
  | l :: ls, s, h => by
      obtain ⟨e1, e2, e3⟩ := onLine_tset_invariant (s := s) l h
      obtain ⟨i1, i2, i3⟩ := processLines_tset ls (onLine s l).1 e2
      rw [processLines_cons]
      exact ⟨by rw [i1, e1], i2, by simp [List.countP_append, e3, i3]⟩

theorem countTS_le_one : ∀ (ls : List (List Char)) (s : TrackerState),
    (processLines s ls).2.countP isTotalSetEv
      ≤ (if s.total_songs_set = true then 0 else 1)
  | [], s => by simp [processLines]
  | l :: ls, s => by
      by_cases h1 : s.total_songs_set = false
      · cases h2 : foundSearch (pyStrip l) with
        | some n =>
            rw [processLines_cons, onLine_found h1 h2]
            have := (processLines_tset ls { s with total_songs := n, total_songs_set := true } rfl).2.2
            simp [List.countP_append, List.countP_cons, isTotalSetEv, this, h1]
        | none =>
            rw [processLines_cons, onLine_notFound h1 h2]
            have hrec := countTS_le_one ls (dlStep s (pyStrip l)).1
            rw [dlStep_total.2, h1] at hrec
            simp only [List.countP_append, List.countP_cons, isTotalSetEv,
              dlStep_events_noLog.2, h1] at hrec ⊢
            simpa using hrec
      · have h1' : s.total_songs_set = true := by
          revert h1; cases s.total_songs_set <;> simp
        rw [(processLines_tset (l :: ls) s h1').2.2]
        simp

/-- C5: the total is set by at most one line per run (at most one
`TotalSet` event in any fresh trace), and once `total_songs_set`
holds, processing any further line leaves the total unchanged, keeps
it marked set, and emits no `TotalSet` event. -/
theorem C5_total_set_at_most_once :
    (∀ ls : List (List Char), (runTrace ls).countP isTotalSetEv ≤ 1)
    ∧ (∀ (s : TrackerState) (l : List Char), s.total_songs_set = true →
        (onLine s l).1.total_songs = s.total_songs
        ∧ (onLine s l).1.total_songs_set = true
        ∧ (onLine s l).2.countP isTotalSetEv = 0) :=
  ⟨fun ls => by simpa [runTrace, initState] using countTS_le_one ls initState,
   fun s l h => onLine_tset_invariant l h⟩

/-- Witness for C5: a tracker whose total is already set ignores a
later `Found 9 songs in x` line. -/
theorem C5_witness :
    (runTrace ["Found 2 songs in a".toList, "Found 9 songs in x".toList]).countP isTotalSetEv ≤ 1
    ∧ ((TrackerState.mk 7 0 true).total_songs_set = true
       ∧ (onLine ⟨7, 0, true⟩ "Found 9 songs in x".toList).1.total_songs = 7
       ∧ (onLine ⟨7, 0, true⟩ "Found 9 songs in x".toList).1.total_songs_set = true
       ∧ (onLine ⟨7, 0, true⟩ "Found 9 songs in x".toList).2.countP isTotalSetEv = 0) :=
  ⟨C5_total_set_at_most_once.1 _,
   ⟨rfl, C5_total_set_at_most_once.2 ⟨7, 0, true⟩ "Found 9 songs in x".toList rfl⟩⟩

/-! ## Claim C9 -/

theorem dlStep_zero_total (d : Nat) (c : List Char) :
    dlStep ⟨0, d, true⟩ c
      = if downloadedSearch c
          then (⟨0, d + 1, true⟩, [Event.DownloadedIncremented (d + 1)])
          else (⟨0, d, true⟩, []) := by
  unfold dlStep
  split <;> simp_all

theorem zeroTotal_processLines : ∀ (ls : List (List Char)) (d : Nat),
    (processLines ⟨0, d, true⟩ ls).2.countP isTotalSetEv = 0
    ∧ (processLines ⟨0, d, true⟩ ls).2.countP isPUEv = 0
    ∧ (processLines ⟨0, d, true⟩ ls).2.countP isDLEv
        = ls.countP (fun l => downloadedSearch (pyStrip l))
    ∧ (processLines ⟨0, d, true⟩ ls).1
        = ⟨0, d + ls.countP (fun l => downloadedSearch (pyStrip l)), true⟩
  | [], d => by simp [processLines]
  | l :: ls, d => by
      rw [processLines_cons, onLine_tset rfl, dlStep_zero_total, List.countP_cons]
      cases hdl : downloadedSearch (pyStrip l) with
      | true =>
          obtain ⟨i1, i2, i3, i4⟩ := zeroTotal_processLines ls (d + 1)
          refine ⟨?_, ?_, ?_, ?_⟩ <;>
            simp [List.countP_append, List.countP_cons, isTotalSetEv, isPUEv, isDLEv,
              i1, i2, i3, i4] <;> omega
      | false =>
          obtain ⟨i1, i2, i3, i4⟩ := zeroTotal_processLines ls d
          refine ⟨?_, ?_, ?_, ?_⟩ <;>
            simp [List.countP_append, List.countP_cons, isTotalSetEv, isPUEv, isDLEv,
              i1, i2, i3, i4]

/-- C9: a first line whose total-found match captures 0 yields
`TotalSet 0` and state `⟨0, 0, set⟩`; thereafter no `TotalSet` and no
`ProgressUpdated` event is ever emitted, while `DownloadedIncremented`
is still emitted once per downloaded-matching line, and the total
stays 0 and marked set. -/
theorem C9_total_zero (l0 : List Char) (h : foundSearch (pyStrip l0) = some 0) :
    onLine initState l0
      = (⟨0, 0, true⟩,
         [Event.LogEmitted (pyStrip l0), Event.TotalSet 0,
          Event.LogEmitted (totalLogText 0)])
    ∧ ∀ ls : List (List Char),
        (processLines ⟨0, 0, true⟩ ls).2.countP isTotalSetEv = 0
        ∧ (processLines ⟨0, 0, true⟩ ls).2.countP isPUEv = 0
        ∧ (processLines ⟨0, 0, true⟩ ls).2.countP isDLEv
            = ls.countP (fun l => downloadedSearch (pyStrip l))
        ∧ (processLines ⟨0, 0, true⟩ ls).1
            = ⟨0, ls.countP (fun l => downloadedSearch (pyStrip l)), true⟩ :=
  ⟨by rw [onLine_found rfl h]; rfl,
   fun ls => by
     obtain ⟨i1, i2, i3, i4⟩ := zeroTotal_processLines ls 0
     exact ⟨i1, i2, i3, by rw [i4]; simp⟩⟩

/-- Witness for C9 at the line `Found 0 songs in x` followed by one
downloaded line. -/
theorem C9_witness :
    foundSearch (pyStrip "Found 0 songs in x".toList) = some 0
    ∧ onLine initState "Found 0 songs in x".toList
        = (⟨0, 0, true⟩,
           [Event.LogEmitted (pyStrip "Found 0 songs in x".toList), Event.TotalSet 0,
            Event.LogEmitted (totalLogText 0)])
    ∧ (processLines ⟨0, 0, true⟩ ["Downloaded \"a\":".toList]).2.countP isPUEv = 0
    ∧ (processLines ⟨0, 0, true⟩ ["Downloaded \"a\":".toList]).2.countP isDLEv = 1 :=
  ⟨by decide,
   (C9_total_zero "Found 0 songs in x".toList (by decide)).1,
   by
     obtain ⟨-, i2, i3, -⟩ := (C9_total_zero "Found 0 songs in x".toList (by decide)).2
       ["Downloaded \"a\":".toList]
     exact ⟨i2, by rw [i3]; decide⟩⟩

/-! ## Claim C6 -/

theorem dlStep_noPU_of_total_zero {s : TrackerState} {c : List Char}
    (h : s.total_songs = 0) : (dlStep s c).2.countP isPUEv = 0 := by
  unfold dlStep
  split
  · rw [if_neg (by omega)]
    simp [isPUEv]
  · simp

theorem onLine_noPU_of_total_zero {s : TrackerState} {l : List Char}
    (h : s.total_songs = 0) : (onLine s l).2.countP isPUEv = 0 := by
  by_cases h1 : s.total_songs_set = false
  · cases h2 : foundSearch (pyStrip l) with
    | some n => rw [onLine_found h1 h2]; simp [isPUEv]
    | none =>
        rw [onLine_notFound h1 h2]
        simp [List.countP_cons, isPUEv, dlStep_noPU_of_total_zero h]
  · rw [onLine_tset (by revert h1; cases s.total_songs_set <;> simp)]
    simp [List.countP_cons, isPUEv, dlStep_noPU_of_total_zero h]

theorem onLine_found_shape_of_total_change {s : TrackerState} {l : List Char}
    (h : s.total_songs = 0) (h2 : (onLine s l).1.total_songs ≠ 0) :
    ∃ m, (onLine s l).2
      = [Event.LogEmitted (pyStrip l), Event.TotalSet m,
         Event.LogEmitted (totalLogText m)] := by
  by_cases h1 : s.total_songs_set = false
  · cases hf : foundSearch (pyStrip l) with
    | some m => exact ⟨m, by rw [onLine_found h1 hf]⟩
    | none =>
        exfalso
        rw [onLine_notFound h1 hf] at h2
        exact h2 (by rw [dlStep_total.1, h])
  · exfalso
    rw [onLine_tset (by revert h1; cases s.total_songs_set <;> simp)] at h2
    exact h2 (by rw [dlStep_total.1, h])

theorem noPU_before_TS : ∀ (ls : List (List Char)) (s : TrackerState) (n : Nat),
    s.total_songs = 0 →
    ((processLines s ls).2.take n).countP isTotalSetEv = 0 →
    ((processLines s ls).2.take n).countP isPUEv = 0
  | [], s, n, _, _ => by simp [processLines]
  | l :: ls, s, n, h, hTS => by
      rw [processLines_cons, List.take_append_eq_append_take, List.countP_append] at hTS ⊢
      have hTS1 : ((onLine s l).2.take n).countP isTotalSetEv = 0 := by omega
      have hTS2 : (((processLines (onLine s l).1 ls).2).take
          (n - (onLine s l).2.length)).countP isTotalSetEv = 0 := by omega
      have hPU1 : ((onLine s l).2.take n).countP isPUEv = 0 :=
        Nat.le_zero.mp (le_trans
          (List.Sublist.countP_le isPUEv (List.take_sublist n (onLine s l).2))
          (le_of_eq (onLine_noPU_of_total_zero h)))
      by_cases htot : (onLine s l).1.total_songs = 0
      · rw [hPU1, noPU_before_TS ls (onLine s l).1 _ htot hTS2]
      · obtain ⟨m, hE⟩ := onLine_found_shape_of_total_change h htot
        rw [hE] at hTS1 ⊢
        match n with
        | 0 => simp
        | 1 => simp [isPUEv]
        | n + 2 =>
            exfalso
            rw [List.take_succ_cons, List.take_succ_cons, List.countP_cons,
              List.countP_cons] at hTS1
            simp [isTotalSetEv] at hTS1

/-- C6: in a fresh run's event trace, no `ProgressUpdated` event ever
occurs before the first `TotalSet` event: any trace prefix containing
no `TotalSet` contains no `ProgressUpdated` either (`progress` is
guarded by `total_songs > 0`, which only the total-setting branch can
establish). -/
theorem C6_no_progress_before_total (ls : List (List Char)) (n : Nat)
    (h : ((runTrace ls).take n).countP isTotalSetEv = 0) :
    ((runTrace ls).take n).countP isPUEv = 0 :=
  noPU_before_TS ls initState n rfl h

/-- Witness for C6 at a concrete input. -/
theorem C6_witness :
    ((runTrace ["Downloaded \"a\":".toList]).take 5).countP isTotalSetEv = 0
    ∧ ((runTrace ["Downloaded \"a\":".toList]).take 5).countP isPUEv = 0 :=
  ⟨by decide, C6_no_progress_before_total _ 5 (by decide)⟩

/-! ## Bounds on the binary64 rounding model

These lemmas establish that `roundDouble` rounds to within half an
ulp, which is what claim C4 needs: the truncated percentage cannot
exceed 100 when `downloaded ≤ total`. -/

theorem bitlenAux_zero (fuel : Nat) : bitlenAux fuel 0 = 0 := by
  cases fuel <;> simp [bitlenAux]

theorem bitlenAux_bounds : ∀ (fuel n : Nat), 0 < n → n < 2 ^ fuel →
    2 ^ (bitlenAux fuel n - 1) ≤ n ∧ n < 2 ^ bitlenAux fuel n
  | 0, n, h0, hf => absurd (Nat.lt_of_lt_of_le hf (by norm_num)) (Nat.not_lt.mpr h0)
  | fuel + 1, n, h0, hf => by
      rw [bitlenAux, if_neg (Nat.pos_iff_ne_zero.mp h0)]
      by_cases h2 : n / 2 = 0
      · have hn1 : n = 1 := by omega
        subst hn1
        simp [h2, bitlenAux_zero]
      · have hpos : 0 < n / 2 := Nat.pos_iff_ne_zero.mpr h2
        have hlt : n / 2 < 2 ^ fuel := by
          rw [Nat.div_lt_iff_lt_mul (by norm_num)]
          calc n < 2 ^ (fuel + 1) := hf
            _ = 2 ^ fuel * 2 := by rw [Nat.pow_succ]
        obtain ⟨ih1, ih2⟩ := bitlenAux_bounds fuel (n / 2) hpos hlt
        have hk : 1 ≤ bitlenAux fuel (n / 2) := by
          by_contra hc
          have : bitlenAux fuel (n / 2) = 0 := by omega
          rw [this] at ih2
          omega
        constructor
        · have : 2 ^ (bitlenAux fuel (n / 2) + 1 - 1) = 2 * 2 ^ (bitlenAux fuel (n / 2) - 1) := by
            rw [Nat.add_sub_cancel, ← Nat.pow_succ']
            congr 1
            omega
          rw [this]
          calc 2 * 2 ^ (bitlenAux fuel (n / 2) - 1) ≤ 2 * (n / 2) :=
                Nat.mul_le_mul_left 2 ih1
            _ ≤ n := by omega
        · calc n < 2 * (n / 2) + 2 := by omega
            _ = 2 * (n / 2 + 1) := by ring
            _ ≤ 2 * 2 ^ bitlenAux fuel (n / 2) := Nat.mul_le_mul_left 2 (by omega)
            _ = 2 ^ (bitlenAux fuel (n / 2) + 1) := (Nat.pow_succ' ..).symm

theorem bitlen_bounds (n : Nat) (h : 0 < n) :
    2 ^ (bitlen n - 1) ≤ n ∧ n < 2 ^ bitlen n :=
  bitlenAux_bounds (n + 1) n h
    (lt_of_lt_of_le (Nat.lt_two_pow n) (Nat.pow_le_pow_right (by norm_num) (Nat.le_succ n)))

theorem bitlen_pos (n : Nat) (h : 0 < n) : 1 ≤ bitlen n := by
  by_contra hc
  have h0 : bitlen n = 0 := by omega
  have := (bitlen_bounds n h).2
  rw [h0] at this
  omega

theorem pow2_eq (k : Int) : pow2 k = (2 : ℚ) ^ k := by
  cases k with
  | ofNat n => simp [pow2, zpow_natCast]
  | negSucc n =>
      simp only [pow2, zpow_negSucc]
      rw [one_div]
      congr 1
      push_cast
      rfl

theorem pow2_natCast (n : Nat) : pow2 (n : Int) = ((2 ^ n : Nat) : ℚ) := rfl

theorem pow2_pos (k : Int) : 0 < pow2 k := by
  rw [pow2_eq]
  exact zpow_pos (by norm_num) k

theorem pow2_mul (a b : Int) : pow2 a * pow2 b = pow2 (a + b) := by
  rw [pow2_eq, pow2_eq, pow2_eq, ← zpow_add₀ (two_ne_zero)]

theorem pow2_div (a b : Int) : pow2 a / pow2 b = pow2 (a - b) := by
  rw [pow2_eq, pow2_eq, pow2_eq, ← zpow_sub₀ (two_ne_zero)]

theorem pow2_zero : pow2 0 = 1 := rfl

theorem pow2_mono {a b : Int} (h : a ≤ b) : pow2 a ≤ pow2 b := by
  rw [pow2_eq, pow2_eq]
  exact zpow_le_zpow_right₀ (by norm_num) h

theorem pow2_strictMono {a b : Int} (h : a < b) : pow2 a < pow2 b := by
  rw [pow2_eq, pow2_eq]
  exact zpow_lt_zpow_right₀ (by norm_num) h

theorem pow2_le_reflect {a b : Int} (h : pow2 a ≤ pow2 b) : a ≤ b := by
  rw [pow2_eq, pow2_eq] at h
  exact (zpow_le_zpow_iff_right₀ (by norm_num)).mp h

theorem pow2_lt_reflect {a b : Int} (h : pow2 a < pow2 b) : a < b := by
  rw [pow2_eq, pow2_eq] at h
  exact (zpow_lt_zpow_iff_right₀ (by norm_num)).mp h

theorem pow2_big : pow2 53 = ((2 ^ 53 : Nat) : ℚ) := rfl

theorem hundred_lt_pow2_seven : (100 : ℚ) < pow2 7 := by
  have h : pow2 7 = ((128 : Nat) : ℚ) := rfl
  rw [h]
  norm_num

theorem roundNE_le (x : ℚ) : (roundNE x : ℚ) ≤ x + 1 / 2 := by
  have hf := Int.floor_le x
  unfold roundNE
  split_ifs with h1 h2 h3 <;> push_cast <;> linarith

theorem le_roundNE (x : ℚ) : x - 1 / 2 ≤ (roundNE x : ℚ) := by
  have hf := Int.lt_floor_add_one x
  unfold roundNE
  split_ifs with h1 h2 h3 <;> push_cast <;> linarith

theorem fExp_correct {q : ℚ} (hq : 0 < q) :
    pow2 (fExp q) ≤ q ∧ q < pow2 (fExp q + 1) := by
  have hden : (0 : ℚ) < (q.den : ℚ) := by
    exact_mod_cast q.den_pos
  have hnum : (0 : Int) < q.num := Rat.num_pos.mpr hq
  have hN : 0 < q.num.toNat := by omega
  have hND : ((q.num.toNat : ℚ)) = q * (q.den : ℚ) := by
    have h1 : ((q.num : ℚ)) = q * (q.den : ℚ) :=
      (div_eq_iff (ne_of_gt hden)).mp (Rat.num_div_den q)
    have h2 : (q.num.toNat : Int) = q.num := Int.toNat_of_nonneg hnum.le
    rw [← h1]
    exact_mod_cast congrArg (fun z : Int => ((z : ℚ))) h2
  obtain ⟨hn1, hn2⟩ := bitlen_bounds q.num.toNat hN
  obtain ⟨hd1, hd2⟩ := bitlen_bounds q.den q.den_pos
  have hbn := bitlen_pos q.num.toNat hN
  have hbd := bitlen_pos q.den q.den_pos
  set N := q.num.toNat with hNdef
  set bn := bitlen N with hbndef
  set bd := bitlen q.den with hbddef
  -- upper estimate: q < pow2 (bn - bd + 1)
  have hub : q < pow2 ((bn : Int) - (bd : Int) + 1) := by
    have step1 : q * pow2 ((bd : Int) - 1) ≤ q * (q.den : ℚ) := by
      apply mul_le_mul_of_nonneg_left _ hq.le
      have : pow2 ((bd : Int) - 1) = ((2 ^ (bd - 1) : Nat) : ℚ) := by
        rw [← pow2_natCast]
        congr 1
        omega
      rw [this]
      exact_mod_cast hd1
    have step2 : q * (q.den : ℚ) < ((2 ^ bn : Nat) : ℚ) := by
      rw [← hND]
      exact_mod_cast hn2
    have step3 : q * pow2 ((bd : Int) - 1) < pow2 (bn : Int) := by
      rw [pow2_natCast]
      exact lt_of_le_of_lt step1 step2
    have step4 : q < pow2 (bn : Int) / pow2 ((bd : Int) - 1) :=
      (lt_div_iff₀ (pow2_pos _)).mpr step3
    rw [pow2_div] at step4
    have : (bn : Int) - ((bd : Int) - 1) = (bn : Int) - (bd : Int) + 1 := by ring
    rwa [this] at step4
  -- lower estimate: pow2 (bn - 1 - bd) < q
  have hlb : pow2 ((bn : Int) - 1 - (bd : Int)) < q := by
    have step1 : pow2 ((bn : Int) - 1) ≤ q * (q.den : ℚ) := by
      rw [← hND]
      have : pow2 ((bn : Int) - 1) = ((2 ^ (bn - 1) : Nat) : ℚ) := by
        rw [← pow2_natCast]
        congr 1
        omega
      rw [this]
      exact_mod_cast hn1
    have step2 : q * (q.den : ℚ) < q * pow2 (bd : Int) := by
      apply mul_lt_mul_of_pos_left _ hq
      rw [pow2_natCast]
      exact_mod_cast hd2
    have step3 : pow2 ((bn : Int) - 1) < q * pow2 (bd : Int) :=
      lt_of_le_of_lt step1 step2
    have step4 : pow2 ((bn : Int) - 1) / pow2 (bd : Int) < q :=
      (div_lt_iff₀ (pow2_pos _)).mpr step3
    rwa [pow2_div] at step4
  unfold fExp
  by_cases hcase : pow2 ((bitlen q.num.toNat : Int) - (bitlen q.den : Int)) ≤ q
  · rw [if_pos hcase]
    exact ⟨hcase, hub⟩
  · rw [if_neg hcase]
    constructor
    · have : (bn : Int) - (bd : Int) - 1 = (bn : Int) - 1 - (bd : Int) := by ring
      rw [this]
      exact hlb.le
    · have : (bn : Int) - (bd : Int) - 1 + 1 = (bn : Int) - (bd : Int) := by ring
      rw [this]
      exact lt_of_not_le hcase

theorem roundDouble_le {q : ℚ} (hq : 0 < q) :
    roundDouble q ≤ q + pow2 (fExp q - 53) := by
  unfold roundDouble
  rw [if_neg (not_le.mpr hq)]
  calc (roundNE (q * pow2 (52 - fExp q)) : ℚ) * pow2 (fExp q - 52)
      ≤ (q * pow2 (52 - fExp q) + 1 / 2) * pow2 (fExp q - 52) :=
        mul_le_mul_of_nonneg_right (roundNE_le _) (pow2_pos _).le
    _ = q * (pow2 (52 - fExp q) * pow2 (fExp q - 52))
        + (1 / 2) * pow2 (fExp q - 52) := by ring
    _ = q + pow2 (fExp q - 53) := by
        rw [pow2_mul]
        have h1 : 52 - fExp q + (fExp q - 52) = 0 := by ring
        rw [h1, pow2_zero, mul_one]
        have h2 : (1 / 2 : ℚ) = pow2 (-1) := by with_unfolding_all decide
        rw [h2, pow2_mul]
        have h3 : -1 + (fExp q - 52) = fExp q - 53 := by ring
        rw [h3]

theorem le_roundDouble {q : ℚ} (hq : 0 < q) :
    q - pow2 (fExp q - 53) ≤ roundDouble q := by
  unfold roundDouble
  rw [if_neg (not_le.mpr hq)]
  calc q - pow2 (fExp q - 53)
      = (q * pow2 (52 - fExp q) - 1 / 2) * pow2 (fExp q - 52) := by
        have h2 : (1 / 2 : ℚ) = pow2 (-1) := by with_unfolding_all decide
        rw [sub_mul, mul_assoc, pow2_mul, h2, pow2_mul]
        have h1 : 52 - fExp q + (fExp q - 52) = 0 := by ring
        have h3 : -1 + (fExp q - 52) = fExp q - 53 := by ring
        rw [h1, h3, pow2_zero, mul_one]
    _ ≤ (roundNE (q * pow2 (52 - fExp q)) : ℚ) * pow2 (fExp q - 52) :=
        mul_le_mul_of_nonneg_right (le_roundNE _) (pow2_pos _).le

theorem roundDouble_pos {q : ℚ} (hq : 0 < q) : 0 < roundDouble q := by
  have h1 := le_roundDouble hq
  have h2 : pow2 (fExp q - 53) < q :=
    lt_of_lt_of_le (pow2_strictMono (by omega)) (fExp_correct hq).1
  linarith

theorem roundDouble_zero : roundDouble 0 = 0 := by
  simp [roundDouble]

theorem roundDouble_one : roundDouble 1 = 1 := by
  with_unfolding_all rfl

theorem roundDouble_le_one {q : ℚ} (h0 : 0 < q) (h1 : q ≤ 1) :
    roundDouble q ≤ 1 := by
  have he : fExp q ≤ 0 := by
    apply pow2_le_reflect
    rw [pow2_zero]
    exact le_trans (fExp_correct h0).1 h1
  rcases lt_or_eq_of_le he with he1 | he0
  · -- fExp q ≤ -1: the rounded value is at most pow2 (fExp q + 1) ≤ 1
    unfold roundDouble
    rw [if_neg (not_le.mpr h0)]
    have hs : q * pow2 (52 - fExp q) < pow2 53 := by
      have hs0 : q * pow2 (52 - fExp q) < pow2 (fExp q + 1) * pow2 (52 - fExp q) :=
        mul_lt_mul_of_pos_right (fExp_correct h0).2 (pow2_pos _)
      rw [pow2_mul] at hs0
      have harg : fExp q + 1 + (52 - fExp q) = 53 := by ring
      rwa [harg] at hs0
    have hle := roundNE_le (q * pow2 (52 - fExp q))
    have hint : roundNE (q * pow2 (52 - fExp q)) ≤ ((2 ^ 53 : Nat) : Int) := by
      by_contra hc
      push_neg at hc
      have hc2 : pow2 53 + 1 ≤ (roundNE (q * pow2 (52 - fExp q)) : ℚ) := by
        rw [pow2_big]
        exact_mod_cast Int.add_one_le_iff.mpr hc
      linarith
    have hmQ : (roundNE (q * pow2 (52 - fExp q)) : ℚ) ≤ pow2 53 := by
      rw [pow2_big]
      exact_mod_cast hint
    calc (roundNE (q * pow2 (52 - fExp q)) : ℚ) * pow2 (fExp q - 52)
        ≤ pow2 53 * pow2 (fExp q - 52) :=
          mul_le_mul_of_nonneg_right hmQ (pow2_pos _).le
      _ = pow2 (fExp q + 1) := by
          rw [pow2_mul]
          congr 1
          ring
      _ ≤ pow2 0 := pow2_mono (by omega)
      _ = 1 := pow2_zero
  · -- fExp q = 0 forces q = 1
    have hq1 : (1 : ℚ) ≤ q := by
      have h := (fExp_correct h0).1
      rw [he0, pow2_zero] at h
      exact h
    rw [le_antisymm h1 hq1, roundDouble_one]

theorem floor_roundDouble_mul_le {x : ℚ} (h0 : 0 < x) (h1 : x ≤ 1) :
    ⌊roundDouble (x * 100)⌋ ≤ 100 := by
  have hy0 : 0 < x * 100 := by linarith
  have hy1 : x * 100 ≤ 100 := by linarith
  have he : fExp (x * 100) ≤ 6 := by
    have h128 : pow2 (fExp (x * 100)) < pow2 7 :=
      lt_of_le_of_lt (le_trans (fExp_correct hy0).1 hy1) hundred_lt_pow2_seven
    have := pow2_lt_reflect h128
    omega
  have hb : roundDouble (x * 100) ≤ x * 100 + pow2 (fExp (x * 100) - 53) :=
    roundDouble_le hy0
  have hsmall : pow2 (fExp (x * 100) - 53) < 1 := by
    calc pow2 (fExp (x * 100) - 53) < pow2 0 := pow2_strictMono (by omega)
      _ = 1 := pow2_zero
  have hlt : roundDouble (x * 100) < 101 := by linarith
  have := Int.floor_lt.mpr (by exact_mod_cast hlt : roundDouble (x * 100) < ((101 : Int) : ℚ))
  omega

theorem pyPercent_le_100 {d t : Nat} (hd : d ≤ t) (ht : 0 < t) :
    pyPercent d t ≤ 100 := by
  rcases Nat.eq_zero_or_pos d with hd0 | hdpos
  · subst hd0
    simp [pyPercent, roundDouble_zero]
  · have htq : (0 : ℚ) < (t : ℚ) := by exact_mod_cast ht
    have hx0 : (0 : ℚ) < (d : ℚ) / (t : ℚ) :=
      div_pos (by exact_mod_cast hdpos) htq
    have hx1 : (d : ℚ) / (t : ℚ) ≤ 1 :=
      (div_le_one htq).mpr (by exact_mod_cast hd)
    have hr0 : 0 < roundDouble ((d : ℚ) / (t : ℚ)) := roundDouble_pos hx0
    have hr1 : roundDouble ((d : ℚ) / (t : ℚ)) ≤ 1 := roundDouble_le_one hx0 hx1
    have := floor_roundDouble_mul_le hr0 hr1
    unfold pyPercent
    omega

/-! ## Claim C4 -/

theorem dlStep_PU_mem {s : TrackerState} {c : List Char} {p : Nat} {st : List Char}
    (h : Event.ProgressUpdated p st ∈ (dlStep s c).2) :
    p = pyPercent (s.downloaded_songs + 1) s.total_songs
    ∧ 0 < s.total_songs
    ∧ (dlStep s c).1.downloaded_songs = s.downloaded_songs + 1 := by
  unfold dlStep at h ⊢
  by_cases hdl : downloadedSearch c = true
  · rw [if_pos hdl] at h ⊢
    by_cases ht : s.total_songs > 0
    · rw [if_pos ht] at h ⊢
      simp only [List.mem_cons, List.not_mem_nil, or_false] at h
      rcases h with h | h
      · exact absurd h (by simp)
      · obtain ⟨hp, -⟩ := Event.ProgressUpdated.inj h
        exact ⟨hp, ht, rfl⟩
    · rw [if_neg ht] at h
      simp only [List.mem_cons, List.not_mem_nil, or_false] at h
      exact absurd h (by simp)
  · rw [if_neg hdl] at h
    exact absurd h (List.not_mem_nil _)

theorem onLine_wf {s : TrackerState} {l : List Char}
    (hwf : 0 < s.total_songs → s.total_songs_set = true) :
    0 < (onLine s l).1.total_songs → (onLine s l).1.total_songs_set = true := by
  by_cases h1 : s.total_songs_set = false
  · cases h2 : foundSearch (pyStrip l) with
    | some n => rw [onLine_found h1 h2]; intro; rfl
    | none =>
        rw [onLine_notFound h1 h2]
        intro h
        rw [dlStep_total.2]
        exact hwf (by rwa [dlStep_total.1] at h)
  · rw [onLine_tset (by revert h1; cases s.total_songs_set <;> simp)]
    intro
    rw [dlStep_total.2]
    revert h1
    cases s.total_songs_set <;> simp

theorem PU_origin : ∀ (ls : List (List Char)) (s : TrackerState),
    (0 < s.total_songs → s.total_songs_set = true) →
    ∀ (p : Nat) (st : List Char),
    Event.ProgressUpdated p st ∈ (processLines s ls).2 →
    ∃ d, p = pyPercent d (processLines s ls).1.total_songs
      ∧ d ≤ (processLines s ls).1.downloaded_songs
      ∧ 0 < (processLines s ls).1.total_songs
  | [], _, _, p, st, h => absurd h (List.not_mem_nil _)
  | l :: ls, s, hwf, p, st, h => by
      rw [processLines_cons] at h ⊢
      rcases List.mem_append.mp h with hE | hR
      · -- the event was emitted by this very line, via the downloaded branch
        have hstep : Event.ProgressUpdated p st ∈ (dlStep s (pyStrip l)).2 := by
          by_cases h1 : s.total_songs_set = false
          · cases h2 : foundSearch (pyStrip l) with
            | some n =>
                rw [onLine_found h1 h2] at hE
                simp at hE
            | none =>
                rw [onLine_notFound h1 h2] at hE
                rcases List.mem_cons.mp hE with hq | hq
                · exact absurd hq (by simp)
                · exact hq
          · rw [onLine_tset (by revert h1; cases s.total_songs_set <;> simp)] at hE
            rcases List.mem_cons.mp hE with hq | hq
            · exact absurd hq (by simp)
            · exact hq
        obtain ⟨hp, htpos, hd⟩ := dlStep_PU_mem hstep
        have htset : s.total_songs_set = true := hwf htpos
        have honl : onLine s l = ((dlStep s (pyStrip l)).1,
            Event.LogEmitted (pyStrip l) :: (dlStep s (pyStrip l)).2) :=
          onLine_tset htset
        have hTfin := processLines_tset ls (onLine s l).1
          (by rw [honl]; rw [dlStep_total.2]; exact htset)
        have hTeq : (processLines (onLine s l).1 ls).1.total_songs = s.total_songs := by
          rw [hTfin.1, honl, dlStep_total.1]
        refine ⟨s.downloaded_songs + 1, ?_, ?_, ?_⟩
        · rw [hp, hTeq]
        · calc s.downloaded_songs + 1 = (onLine s l).1.downloaded_songs := by
                rw [honl, hd]
            _ ≤ (processLines (onLine s l).1 ls).1.downloaded_songs :=
                processLines_downloaded_mono ls (onLine s l).1
        · rw [hTeq]; exact htpos
      · exact PU_origin ls (onLine s l).1 (onLine_wf hwf) p st hR

set_option maxRecDepth 40000 in
/-- C4 counterexample: with total = 1 and two downloaded lines, the
second `progress` emission reports 200, outside 0–100 — the code never
clamps `int((downloaded/total)*100)`. -/
theorem C4_counterexample :
    Event.ProgressUpdated 200 (statusText 2 1) ∈
      runTrace ["Found 1 songs in a".toList, "Downloaded \"x\":".toList,
        "Downloaded \"y\":".toList]
    ∧ ¬(200 ≤ 100) := by
  constructor
  · with_unfolding_all decide
  · decide

/-- C4 amended: reported percentages are nonnegative by construction,
and they lie within 0–100 for every run in which the downloaded
counter never exceeds the total (equivalently here: the final
downloaded count is at most the final total); without that proviso the
value can exceed 100, as the code does not clamp. -/
theorem C4_percentage_range (ls : List (List Char))
    (h : (processLines initState ls).1.downloaded_songs
          ≤ (processLines initState ls).1.total_songs) :
    ∀ (p : Nat) (st : List Char),
      Event.ProgressUpdated p st ∈ runTrace ls → p ≤ 100 := by
  intro p st hmem
  obtain ⟨d, hp, hd, htpos⟩ := PU_origin ls initState
    (by intro h0; simp [initState] at h0) p st hmem
  rw [hp]
  exact pyPercent_le_100 (le_trans hd h) htpos

set_option maxRecDepth 40000 in
/-- Witness for C4 at a concrete input: total 2, one downloaded line,
reported percentage 50 ≤ 100. -/
theorem C4_witness :
    (processLines initState ["Found 2 songs in a".toList, "Downloaded \"x\":".toList]).1.downloaded_songs
      ≤ (processLines initState ["Found 2 songs in a".toList, "Downloaded \"x\":".toList]).1.total_songs
    ∧ Event.ProgressUpdated 50 (statusText 1 2) ∈
        runTrace ["Found 2 songs in a".toList, "Downloaded \"x\":".toList]
    ∧ 50 ≤ 100 :=
  ⟨by decide, by with_unfolding_all decide,
   C4_percentage_range ["Found 2 songs in a".toList, "Downloaded \"x\":".toList]
     (by decide) 50 (statusText 1 2) (by with_unfolding_all decide)⟩

/-! ## Claim C7 -/

set_option maxRecDepth 40000 in
/-- C7 counterexample: with total 50 and downloaded reaching 29, the
code reports `int((29/50)*100) = 57` (the double product is
57.99999999999999), but `floor(29/50*100) = 58`; no event ever
reports 58 for that step, so the reported percentage does not equal
the claimed floor. -/
theorem C7_counterexample :
    Event.ProgressUpdated 57 (statusText 29 50) ∈
      runTrace ("Found 50 songs in a".toList
        :: List.replicate 29 ("Downloaded \"s\":".toList))
    ∧ Event.ProgressUpdated 58 (statusText 29 50) ∉
      runTrace ("Found 50 songs in a".toList
        :: List.replicate 29 ("Downloaded \"s\":".toList))
    ∧ 29 * 100 / 50 = 58 := by
  refine ⟨?_, ?_, by decide⟩ <;> with_unfolding_all decide

set_option maxRecDepth 40000 in
/-- C7 amended: the reported percentage is the double-precision value
`int((downloaded/total)*100)`, which agrees with the exact floor on
the claim's instances: with total 10 and 4 downloaded lines the
reported percentage is 40, and feeding a downloaded line when total is
5 and downloaded is 2 yields `DownloadedIncremented 3` and
`ProgressUpdated 60` (but see the counterexample: the two can differ
by one, e.g. 57 vs 58 at 29/50). -/
theorem C7_percentage_instances :
    (Event.ProgressUpdated 40 (statusText 4 10) ∈
        runTrace ("Found 10 songs in a".toList
          :: List.replicate 4 ("Downloaded \"s\":".toList))
     ∧ (processLines initState ("Found 10 songs in a".toList
          :: List.replicate 4 ("Downloaded \"s\":".toList))).1.downloaded_songs = 4
     ∧ (processLines initState ("Found 10 songs in a".toList
          :: List.replicate 4 ("Downloaded \"s\":".toList))).1.total_songs = 10)
    ∧ onLine ⟨5, 2, true⟩ "Downloaded \"Artist - Title\":".toList
        = (⟨5, 3, true⟩,
           [Event.LogEmitted (pyStrip "Downloaded \"Artist - Title\":".toList),
            Event.DownloadedIncremented 3,
            Event.ProgressUpdated 60 (statusText 3 5)]) := by
  refine ⟨⟨?_, by decide, by decide⟩, ?_⟩ <;> with_unfolding_all decide

/-! ## Claim C8 -/

/-- The total-found pattern as the spec's words describe it: a line
containing `Found`, then one or more digits, then `songs in` —
mentioning no separators.  This definition follows the spec's words,
for comparison with the code's `foundSearch`. -/
def specFoundPattern (cs : List Char) : Prop :=
  ∃ a ds b, cs = a ++ "Found".toList ++ ds ++ "songs in".toList ++ b
    ∧ ds ≠ [] ∧ ∀ c ∈ ds, isDigitCh c = true

/-- The total-found pattern the code actually matches:
`Found`, one or more whitespace characters, one or more digits, one or
more whitespace characters, then `songs in` followed by a space. -/
def codeFoundPattern (cs : List Char) : Prop :=
  ∃ a w1 ds w2 b,
    cs = a ++ ("Found".toList ++ (w1 ++ (ds ++ (w2 ++ ("songs in ".toList ++ b)))))
    ∧ w1 ≠ [] ∧ (∀ c ∈ w1, isPySpace c = true)
    ∧ ds ≠ [] ∧ (∀ c ∈ ds, isDigitCh c = true)
    ∧ w2 ≠ [] ∧ (∀ c ∈ w2, isPySpace c = true)

theorem stripLit_eq : ∀ {p cs r : List Char}, stripLit p cs = some r → cs = p ++ r
  | [], cs, r, h => by
      cases h
      rfl
  | p :: ps, [], r, h => by cases h
  | p :: ps, c :: cs, r, h => by
      unfold stripLit at h
      by_cases hp : p = c
      · rw [if_pos hp] at h
        rw [← hp, List.cons_append]
        exact congrArg (p :: ·) (stripLit_eq h)
      · rw [if_neg hp] at h
        cases h

theorem stripLit_append : ∀ (p r : List Char), stripLit p (p ++ r) = some r
  | [], r => rfl
  | p :: ps, r => by
      rw [List.cons_append]
      unfold stripLit
      rw [if_pos rfl]
      exact stripLit_append ps r

theorem takeWhile_append_cons (p : Char → Bool) :
    ∀ (w : List Char) (r : Char) (rs : List Char),
    (∀ c ∈ w, p c = true) → p r = false →
    (w ++ r :: rs).takeWhile p = w ∧ (w ++ r :: rs).dropWhile p = r :: rs
  | [], r, rs, _, hr => by
      simp [List.takeWhile, List.dropWhile, hr]
  | c :: w, r, rs, hw, hr => by
      have hc : p c = true := hw c (List.mem_cons_self c w)
      have ih := takeWhile_append_cons p w r rs
        (fun x hx => hw x (List.mem_cons_of_mem c hx)) hr
      simp [List.takeWhile, List.dropWhile, hc, ih.1, ih.2]

theorem digit_not_space {c : Char} (h : isDigitCh c = true) : isPySpace c = false := by
  cases hc : isPySpace c
  · rfl
  · exfalso
    simp only [isPySpace, Bool.or_eq_true, decide_eq_true_eq] at hc
    rcases hc with ((((rfl | rfl) | rfl) | rfl) | rfl) | rfl <;> simp [isDigitCh] at h

theorem space_not_digit {c : Char} (h : isPySpace c = true) : isDigitCh c = false := by
  cases hc : isDigitCh c
  · rfl
  · exfalso
    simp only [isPySpace, Bool.or_eq_true, decide_eq_true_eq] at h
    rcases h with ((((rfl | rfl) | rfl) | rfl) | rfl) | rfl <;> simp [isDigitCh] at hc

theorem matchFoundAt_sound : ∀ {cs : List Char} {n : Nat},
    matchFoundAt cs = some n →
    ∃ w1 ds w2 b,
      cs = "Found".toList ++ (w1 ++ (ds ++ (w2 ++ ("songs in ".toList ++ b))))
      ∧ w1 ≠ [] ∧ (∀ c ∈ w1, isPySpace c = true)
      ∧ ds ≠ [] ∧ (∀ c ∈ ds, isDigitCh c = true)
      ∧ w2 ≠ [] ∧ (∀ c ∈ w2, isPySpace c = true) := by
  intro cs n h
  unfold matchFoundAt at h
  split at h
  · cases h
  · rename_i r1 heq
    by_cases h1 : (r1.takeWhile isPySpace).isEmpty = true
    · rw [if_pos h1] at h; cases h
    rw [if_neg h1] at h
    by_cases h2 : ((r1.dropWhile isPySpace).takeWhile isDigitCh).isEmpty = true
    · rw [if_pos h2] at h; cases h
    rw [if_neg h2] at h
    by_cases h3 : (((r1.dropWhile isPySpace).dropWhile isDigitCh).takeWhile isPySpace).isEmpty = true
    · rw [if_pos h3] at h; cases h
    rw [if_neg h3] at h
    split at h
    · cases h
    · rename_i b hs2
      refine ⟨r1.takeWhile isPySpace,
        (r1.dropWhile isPySpace).takeWhile isDigitCh,
        ((r1.dropWhile isPySpace).dropWhile isDigitCh).takeWhile isPySpace,
        b, ?_, ?_, ?_, ?_, ?_, ?_, ?_⟩
      · rw [stripLit_eq heq]
        congr 1
        rw [← stripLit_eq hs2]
        conv_lhs => rw [← List.takeWhile_append_dropWhile (p := isPySpace) (l := r1)]
        congr 1
        conv_lhs => rw [← List.takeWhile_append_dropWhile (p := isDigitCh)
          (l := r1.dropWhile isPySpace)]
        congr 1
        conv_lhs => rw [← List.takeWhile_append_dropWhile (p := isPySpace)
          (l := (r1.dropWhile isPySpace).dropWhile isDigitCh)]
      · simpa using h1
      · exact fun c hc => List.mem_takeWhile_imp hc
      · simpa using h2
      · exact fun c hc => List.mem_takeWhile_imp hc
      · simpa using h3
      · exact fun c hc => List.mem_takeWhile_imp hc

theorem matchFoundAt_complete (w1 ds w2 b : List Char)
    (hw1 : w1 ≠ []) (hw1s : ∀ c ∈ w1, isPySpace c = true)
    (hds : ds ≠ []) (hdsd : ∀ c ∈ ds, isDigitCh c = true)
    (hw2 : w2 ≠ []) (hw2s : ∀ c ∈ w2, isPySpace c = true) :
    matchFoundAt ("Found".toList ++ (w1 ++ (ds ++ (w2 ++ ("songs in ".toList ++ b)))))
      = some (digitsVal ds) := by
  obtain ⟨d, ds', rfl⟩ := List.exists_cons_of_ne_nil hds
  obtain ⟨u, w2', rfl⟩ := List.exists_cons_of_ne_nil hw2
  have hd : isDigitCh d = true := hdsd d (List.mem_cons_self d ds')
  have hu : isPySpace u = true := hw2s u (List.mem_cons_self u w2')
  have split1 := takeWhile_append_cons isPySpace w1 d
    (ds' ++ ((u :: w2') ++ ("songs in ".toList ++ b))) hw1s (digit_not_space hd)
  have split2 := takeWhile_append_cons isDigitCh (d :: ds') u
    (w2' ++ ("songs in ".toList ++ b)) hdsd (space_not_digit hu)
  have split3 := takeWhile_append_cons isPySpace (u :: w2') 's'
    ("ongs in ".toList ++ b) hw2s (by decide)
  unfold matchFoundAt
  simp only [stripLit_append]
  have ha1 : w1 ++ ((d :: ds') ++ ((u :: w2') ++ ("songs in ".toList ++ b)))
      = w1 ++ (d :: (ds' ++ ((u :: w2') ++ ("songs in ".toList ++ b)))) := by
    simp
  rw [ha1, split1.1, split1.2]
  rw [if_neg (by simpa using hw1)]
  have ha2 : d :: (ds' ++ ((u :: w2') ++ ("songs in ".toList ++ b)))
      = (d :: ds') ++ (u :: (w2' ++ ("songs in ".toList ++ b))) := by
    simp
  rw [ha2, split2.1, split2.2]
  rw [if_neg (by simp)]
  have ha3 : u :: (w2' ++ ("songs in ".toList ++ b))
      = (u :: w2') ++ ('s' :: ("ongs in ".toList ++ b)) := by
    simp
  rw [ha3, split3.1, split3.2]
  rw [if_neg (by simp)]
  have ha4 : 's' :: ("ongs in ".toList ++ b) = "songs in ".toList ++ b := rfl
  rw [ha4, stripLit_append]

theorem foundSearch_sound : ∀ (cs : List Char) (n : Nat),
    foundSearch cs = some n → codeFoundPattern cs
  | [], n, h => by cases h
  | c :: cs, n, h => by
      unfold foundSearch at h
      cases hm : matchFoundAt (c :: cs) with
      | some m =>
          obtain ⟨w1, ds, w2, b, he, p1, p2, p3, p4, p5, p6⟩ := matchFoundAt_sound hm
          exact ⟨[], w1, ds, w2, b, by rw [List.nil_append, ← he], p1, p2, p3, p4, p5, p6⟩
      | none =>
          rw [hm] at h
          obtain ⟨a, w1, ds, w2, b, he, p1, p2, p3, p4, p5, p6⟩ :=
            foundSearch_sound cs n h
          exact ⟨c :: a, w1, ds, w2, b, by rw [he]; rfl, p1, p2, p3, p4, p5, p6⟩

theorem foundSearch_of_suffix : ∀ (a rest : List Char) (m : Nat),
    matchFoundAt rest = some m → (foundSearch (a ++ rest)).isSome = true
  | [], rest, m, h => by
      cases rest with
      | nil => rw [show matchFoundAt ([] : List Char) = none from rfl] at h; cases h
      | cons r rs =>
          rw [List.nil_append]
          unfold foundSearch
          rw [h]
          rfl
  | x :: a, rest, m, h => by
      rw [List.cons_append]
      unfold foundSearch
      cases hm : matchFoundAt (x :: (a ++ rest)) with
      | some k => rfl
      | none => exact foundSearch_of_suffix a rest m h

/-- C8 counterexample: the line `Found1songs in` contains `Found`,
then a digit, then `songs in` — it satisfies the pattern as the claim
describes it — yet the code's regex requires whitespace around the
digits (and a space after `songs in`), so no `TotalSet` is produced
and the total stays unset. -/
theorem C8_counterexample :
    specFoundPattern ("Found1songs in".toList)
    ∧ foundSearch (pyStrip "Found1songs in".toList) = none
    ∧ (onLine initState "Found1songs in".toList).2.countP isTotalSetEv = 0
    ∧ (onLine initState "Found1songs in".toList).1.total_songs_set = false :=
  ⟨⟨[], ['1'], [], by decide, by decide, by decide⟩, by decide, by decide, by decide⟩

/-- C8 amended: the code's total-found pattern requires `Found`, one
or more whitespace characters, one or more digits, one or more
whitespace characters, then `songs in` followed by a space, anywhere
in the trimmed line (`foundSearch` matches exactly those lines); the
first match sets the total and emits `TotalSet` with the captured
digits; in particular the line
`Found 23 songs in "My Playlist" (My Playlist)` yields `TotalSet 23`. -/
theorem C8_found_pattern :
    (∀ cs : List Char, (foundSearch cs).isSome = true ↔ codeFoundPattern cs)
    ∧ (∀ (s : TrackerState) (l : List Char) (n : Nat), s.total_songs_set = false →
        foundSearch (pyStrip l) = some n →
        (onLine s l).2 = [Event.LogEmitted (pyStrip l), Event.TotalSet n,
          Event.LogEmitted (totalLogText n)])
    ∧ (onLine initState "Found 23 songs in \"My Playlist\" (My Playlist)".toList).2
        = [Event.LogEmitted (pyStrip "Found 23 songs in \"My Playlist\" (My Playlist)".toList),
           Event.TotalSet 23, Event.LogEmitted (totalLogText 23)] := by
  refine ⟨fun cs => ⟨?_, ?_⟩, ?_, by decide⟩
  · intro h
    obtain ⟨m, hm⟩ := Option.isSome_iff_exists.mp h
    exact foundSearch_sound cs m hm
  · rintro ⟨a, w1, ds, w2, b, rfl, p1, p2, p3, p4, p5, p6⟩
    exact foundSearch_of_suffix a _ (digitsVal ds)
      (matchFoundAt_complete w1 ds w2 b p1 p2 p3 p4 p5 p6)
  · intro s l n h1 h2
    rw [onLine_found h1 h2]

/-- Witness for C8 at a concrete input. -/
theorem C8_witness :
    initState.total_songs_set = false
    ∧ foundSearch (pyStrip "Found 7 songs in y".toList) = some 7
    ∧ (onLine initState "Found 7 songs in y".toList).2
        = [Event.LogEmitted (pyStrip "Found 7 songs in y".toList), Event.TotalSet 7,
           Event.LogEmitted (totalLogText 7)] :=
  ⟨rfl, by decide, C8_found_pattern.2.1 initState "Found 7 songs in y".toList 7 rfl (by decide)⟩
